import Mathlib

/-!
Verification of the appointment-scheduling / calendar-conflict logic, the
booking operation, the LangGraph document-pipeline router, and the expense
tracker of the `genai-ml-platform-examples` repository.

Shallow embedding conventions:
* Calendar dates (`date`, `start_date`, `end_date` columns) are stored in the
  database in zero-padded `YYYY-MM-DD` text form.  On such strings Python's
  `datetime.date` comparison (used by `_check_calendar_conflict`) and SQLite's
  byte-wise text comparison (used by the SQL in `get_non_clashing_slots`)
  both coincide with lexicographic comparison of the (year, month, day)
  triple, so dates are embedded as a `Date` structure carrying that triple,
  ordered lexicographically.
* Time-of-day columns (`time`, `start_time`, `end_time`) are kept as raw
  strings, because the code parses them in two genuinely different ways:
  Python's `datetime.strptime(s, "%I:%M %p")` and an SQLite expression built
  from `substr`/`instr`/`time()`.  Both parsers are embedded as executable
  functions on `List Char`.
* SQL `NULL` in nullable text columns is `Option String`; Python falsiness
  of such a field (`None` or `""`) is `truthyOpt`.
-/

/-- A calendar date, as produced by `datetime.strptime(s, "%Y-%m-%d").date()`
from a zero-padded `YYYY-MM-DD` string.  Python compares dates by the
(year, month, day) triple, and SQLite compares the zero-padded strings
byte-wise; both orders are the lexicographic order embedded here. -/
structure Date where
  y : Nat
  m : Nat
  d : Nat
deriving DecidableEq, Repr

/-- Lexicographic order on dates: the common meaning of `<=` on Python
`datetime.date` values and of SQLite text `<=` on zero-padded date strings. -/
def dateLe (a b : Date) : Bool :=
  if a.y < b.y then true
  else if b.y < a.y then false
  else if a.m < b.m then true
  else if b.m < a.m then false
  else decide (a.d ≤ b.d)

/-- Numeric value of a digit character. -/
def digitVal (c : Char) : Nat := c.toNat - 48

/-- Value of a list of digit characters read in base 10. -/
def digitsVal (ds : List Char) : Nat := ds.foldl (fun a c => 10 * a + digitVal c) 0

/-- Python truthiness of an optional string field fetched from a nullable
SQL column: `None` and the empty string are falsy. -/
def truthyOpt : Option String → Bool
  | none => false
  | some s => !s.isEmpty

/-- `datetime.strptime(s, "%I:%M %p")`, embedded on the character list of
`s`, returning the minutes past midnight of the resulting `time()` value
(`None` models the `ValueError` raised on a non-matching string).

CPython compiles the format to the regex
`(1[0-2]|0[1-9]|[1-9]):([0-5]\d|\d)\s+(AM|PM)` (the meridiem alternatives
case-insensitively), anchored at the start, and raises if input remains
after the match.  So the hour is one digit `1..9` or two digits `01..12`,
the minute is one digit or two digits up to `59`, one or more whitespace
characters separate minute and meridiem, and nothing may follow. -/
def pyParseTime12 (cs : List Char) : Option Nat :=
  let hs := cs.takeWhile Char.isDigit
  let r1 := cs.dropWhile Char.isDigit
  let h12 := digitsVal hs
  let hourOk : Bool :=
    (hs.length == 1 && decide (1 ≤ h12)) ||
    (hs.length == 2 && decide (1 ≤ h12) && decide (h12 ≤ 12))
  if hourOk then
    match r1 with
    | ':' :: r2 =>
      let ms := r2.takeWhile Char.isDigit
      let r3 := r2.dropWhile Char.isDigit
      let minu := digitsVal ms
      let minOk : Bool := (ms.length == 1) || (ms.length == 2 && decide (minu ≤ 59))
      if minOk then
        let ws := r3.takeWhile Char.isWhitespace
        let r4 := r3.dropWhile Char.isWhitespace
        if ws.isEmpty then none
        else
          match r4 with
          | [a, b] =>
            if (b == 'M' || b == 'm') then
              if (a == 'A' || a == 'a') then
                some ((if h12 == 12 then 0 else h12) * 60 + minu)
              else if (a == 'P' || a == 'p') then
                some ((if h12 == 12 then 12 else h12 + 12) * 60 + minu)
              else none
            else none
          | _ => none
      else none
    | _ => none
  else none

/-- `datetime.strptime(s, "%I:%M %p")` on a Lean `String`. -/
def pyParseTime (s : String) : Option Nat := pyParseTime12 s.data

/-- One appointment slot row of the `appointments` table
(`id, date, time, doctor, available, user_id`). -/
structure ApptRow where
  id : String
  date : Date
  time : String
  doctor : String
  available : Bool
  userId : Option String
deriving DecidableEq, Repr

/-- One row of the `personal_calendar` table, restricted to the columns the
conflict logic reads (`title, start_date, end_date, all_day, start_time,
end_time`). -/
structure CalEvent where
  title : String
  startDate : Date
  endDate : Date
  allDay : Bool
  startTime : Option String
  endTime : Option String
deriving DecidableEq, Repr

/-- The slot dictionary consumed by `_check_calendar_conflict`: only its
`date` and `time` entries are read. -/
structure Slot where
  date : Date
  time : String
deriving DecidableEq, Repr

/-- `_check_calendar_conflict(slot, calendar_events)`: scans the events in
order; an event whose date range contains the slot date conflicts if its
`all_day` flag is truthy, or else if both time fields are truthy and the
three `strptime` calls succeed and place the slot time inside
`[start_time, end_time]`.  A `ValueError` from any of the three time parses
is caught and the scan continues with the next event; a time comparison
that fails simply falls through to the next event. -/
def checkCalendarConflict (slot : Slot) : List CalEvent → Bool × Option String
  | [] => (false, none)
  | e :: rest =>
    if dateLe e.startDate slot.date && dateLe slot.date e.endDate then
      if e.allDay then (true, some e.title)
      else if truthyOpt e.startTime && truthyOpt e.endTime then
        match pyParseTime slot.time,
              pyParseTime (e.startTime.getD ""),
              pyParseTime (e.endTime.getD "") with
        | some slotT, some startT, some endT =>
          if startT ≤ slotT && slotT ≤ endT then (true, some e.title)
          else checkCalendarConflict slot rest
        | _, _, _ => checkCalendarConflict slot rest
      else checkCalendarConflict slot rest
    else checkCalendarConflict slot rest

/-- The per-event conflict condition of `_check_calendar_conflict`:
`checkCalendarConflict` reports a conflict exactly when some event
satisfies this. -/
def pyConflictEvent (slot : Slot) (e : CalEvent) : Bool :=
  (dateLe e.startDate slot.date && dateLe slot.date e.endDate) &&
    (e.allDay ||
      (truthyOpt e.startTime && truthyOpt e.endTime &&
        match pyParseTime slot.time,
              pyParseTime (e.startTime.getD ""),
              pyParseTime (e.endTime.getD "") with
        | some slotT, some startT, some endT => startT ≤ slotT && slotT ≤ endT
        | _, _, _ => false))

lemma checkCalendarConflict_fst (slot : Slot) (evs : List CalEvent) :
    (checkCalendarConflict slot evs).1 = evs.any (pyConflictEvent slot) := by
  induction evs with
  | nil => rfl
  | cons e rest ih =>
    rw [checkCalendarConflict, List.any_cons]
    by_cases hd : (dateLe e.startDate slot.date && dateLe slot.date e.endDate) = true
    case neg =>
      rw [if_neg hd]
      simp only [Bool.not_eq_true] at hd
      simp [pyConflictEvent, hd, ih]
    rw [if_pos hd]
    by_cases hall : e.allDay = true
    case pos => simp [pyConflictEvent, hd, hall]
    rw [if_neg hall]
    simp only [Bool.not_eq_true] at hall
    by_cases ht : (truthyOpt e.startTime && truthyOpt e.endTime) = true
    case neg =>
      rw [if_neg ht]
      simp only [Bool.not_eq_true] at ht
      simp [pyConflictEvent, hd, hall, ht, ih]
    rw [if_pos ht]
    rcases hs : pyParseTime slot.time with _ | slotT
    · simp [pyConflictEvent, hd, hall, ht, hs, ih]
    rcases h1 : pyParseTime (e.startTime.getD "") with _ | startT
    · simp [pyConflictEvent, hd, hall, ht, hs, h1, ih]
    rcases h2 : pyParseTime (e.endTime.getD "") with _ | endT
    · simp [pyConflictEvent, hd, hall, ht, hs, h1, h2, ih]
    simp only [hs, h1, h2]
    by_cases hcmp : (startT ≤ slotT && slotT ≤ endT) = true
    · simp [pyConflictEvent, hd, hall, ht, hs, h1, h2, hcmp]
    · simp only [Bool.not_eq_true] at hcmp
      simp [pyConflictEvent, hd, hall, ht, hs, h1, h2, hcmp, ih]

/-- SQLite byte-wise (memcmp) string comparison `x < y`, on ASCII text. -/
def memLt : List Char → List Char → Bool
  | [], [] => false
  | [], _ :: _ => true
  | _ :: _, [] => false
  | a :: as, b :: bs =>
    if a.toNat < b.toNat then true
    else if b.toNat < a.toNat then false
    else memLt as bs

/-- SQLite text `x <= y` (the order used by `BETWEEN` on text values). -/
def memLe (x y : List Char) : Bool := !memLt y x

/-- SQLite `instr(s, c)` for a single-character needle: 1-based position of
the first occurrence, `0` if absent. -/
def instr1 (cs : List Char) (c : Char) : Nat :=
  match cs.findIdx? (fun x => x == c) with
  | some i => i + 1
  | none => 0

/-- SQLite `substr(s, 1, len)` where `len` may be negative or zero (as in
`substr(t, 1, instr(t, ' ') - 1)` when `t` has no space): a non-positive
length yields the empty string. -/
def substrFrom1 (cs : List Char) (len : Int) : List Char := cs.take len.toNat

/-- SQLite `substr(s, k)` for `k >= 1`: the suffix starting at 1-based
position `k`. -/
def substrFrom (cs : List Char) (k : Nat) : List Char := cs.drop (k - 1)

/-- SQLite `time(v)` with a single text argument, on the shapes reachable
from the query (`HH:MM` prefixes with `':00'` and possibly a stray
`'+12 hours'`/`'-12 hours'` concatenated on): the accepted grammar is
`HH:MM`, optionally `:SS`, optionally a fractional-seconds `.ddd`,
optionally trailing whitespace, with two-digit fields, hour at most 24,
minute and second at most 59.  Anything else (a one-digit field, an
out-of-range field, or any other trailing text, in particular a
concatenated `'+12 hours'` modifier) yields SQL `NULL`, modelled as
`none`.  On success the result is the normalised `HH:MM:SS` text. -/
def sqliteTime (cs : List Char) : Option (List Char) :=
  match cs with
  | h1 :: h2 :: ':' :: m1 :: m2 :: rest =>
    if h1.isDigit && h2.isDigit && m1.isDigit && m2.isDigit &&
       decide (digitsVal [h1, h2] ≤ 24) && decide (digitsVal [m1, m2] ≤ 59) then
      let finish (s1 s2 : Char) (tail : List Char) : Option (List Char) :=
        let tail2 :=
          match tail with
          | '.' :: f => if f.takeWhile Char.isDigit ≠ [] then f.dropWhile Char.isDigit else '.' :: f
          | t => t
        if tail2.all Char.isWhitespace then some [h1, h2, ':', m1, m2, ':', s1, s2]
        else none
      match rest with
      | ':' :: s1 :: s2 :: tail =>
        if s1.isDigit && s2.isDigit && decide (digitsVal [s1, s2] ≤ 59) then
          finish s1 s2 tail
        else none
      | tail => finish '0' '0' tail
    else none
  | _ => none

/-- The time-conversion expression the SQL query applies to a 12-hour text
column `t` (here for `a.time`; the same shape is applied to
`pc.start_time` and `pc.end_time`):

`time(substr(t,1,instr(t,' ')-1) || ':00' || CASE WHEN substr(t,instr(t,' ')+1)='PM' AND substr(t,1,2)!='12' THEN '+12 hours' WHEN substr(t,instr(t,' ')+1)='AM' AND substr(t,1,2)='12' THEN '-12 hours' ELSE '' END)`

Because the `CASE` arm is concatenated into `time()`'s single text argument
rather than passed as a second modifier argument, any non-empty arm makes
the argument unparseable and the expression `NULL`. -/
def sqlTimeConv (s : String) : Option (List Char) :=
  let t := s.data
  let i := instr1 t ' '
  let timePart := substrFrom1 t ((i : Int) - 1)
  let meridiem := substrFrom t (i + 1)
  let modif : List Char :=
    if meridiem == "PM".data && !(substrFrom1 t 2 == "12".data) then "+12 hours".data
    else if meridiem == "AM".data && substrFrom1 t 2 == "12".data then "-12 hours".data
    else []
  sqliteTime (timePart ++ ":00".data ++ modif)

/-- The `EXISTS` subquery's `WHERE` condition of `get_non_clashing_slots`,
for appointment row `a` and calendar row `pc`:

date overlap `pc.start_date <= a.date AND pc.end_date >= a.date` (text
comparison of zero-padded dates, i.e. `dateLe`), and then either
`pc.all_day = 1`, or `pc.all_day = 0` with both time columns non-`NULL`
and the converted slot time `BETWEEN` the converted event times.

SQL three-valued logic note: the only sub-expressions that can be `NULL`
are the three `time(...)` conversions, and a `BETWEEN` involving a `NULL`
is `NULL`.  The condition is a positive `AND`/`OR` combination, which
evaluates to `TRUE` (the only way a row is selected) exactly when it
evaluates to true with `NULL` read as false — hence the `match` arm
returning `false` when any conversion is `none`. -/
def sqlClash (a : ApptRow) (pc : CalEvent) : Bool :=
  (dateLe pc.startDate a.date && dateLe a.date pc.endDate) &&
    (pc.allDay ||
      (!pc.allDay && pc.startTime.isSome && pc.endTime.isSome &&
        match sqlTimeConv a.time,
              sqlTimeConv (pc.startTime.getD ""),
              sqlTimeConv (pc.endTime.getD "") with
        | some x, some y, some z => memLe y x && memLe x z
        | _, _, _ => false))

/-- The health-app database state: the `appointments` and `personal_calendar`
tables, each a list of rows in table order. -/
structure HealthDB where
  appointments : List ApptRow
  personalCalendar : List CalEvent
deriving Repr

/-- One row of the result set `SELECT a.id, a.date, a.time, a.doctor,
a.available` produced by `get_non_clashing_slots`. -/
structure SlotOut where
  id : String
  date : Date
  time : String
  doctor : String
  available : Bool
deriving DecidableEq, Repr

/-- Projection of an appointment row onto the selected columns. -/
def toSlotOut (a : ApptRow) : SlotOut :=
  { id := a.id, date := a.date, time := a.time, doctor := a.doctor,
    available := a.available }

/-- The optional `AND a.date != ?` filter of `get_non_clashing_slots`,
added only when an `unavailable_date` argument was supplied. -/
def notOnUnavailableDate (unavailableDate : Option Date) (d : Date) : Bool :=
  match unavailableDate with
  | some u => !(d == u)
  | none => true

/-- The query of `get_non_clashing_slots`: available appointments matching
the doctor filter (`a.doctor LIKE '%name%'`, abstracted as the predicate
`doctorLike`), optionally excluding `unavailable_date`, and with no
`personal_calendar` row satisfying the `EXISTS` clash condition.  The
query's `ORDER BY a.date, a.time` only permutes the result rows and the
claims concern membership, so the rows are returned in table order. -/
def getNonClashingSlots (db : HealthDB) (doctorLike : String → Bool)
    (unavailableDate : Option Date) : List SlotOut :=
  (db.appointments.filter (fun a =>
      a.available && doctorLike a.doctor &&
      notOnUnavailableDate unavailableDate a.date &&
      !(db.personalCalendar.any (fun pc => sqlClash a pc)))).map toSlotOut

/-- The confirmation dictionary built by `book_appointment` from the fetched
row (`slot[0] .. slot[3]`) and the effective user id. -/
structure BookedAppt where
  slotId : String
  date : Date
  time : String
  doctor : String
  userId : String
deriving DecidableEq, Repr

/-- The dictionary passed to `result_callback` by `book_appointment`. -/
structure BookResult where
  success : Bool
  message : Option String
  error : Option String
  appointment : Option BookedAppt
deriving DecidableEq, Repr

/-- `book_appointment`: fetches the first row with
`id = ? AND available = 1` (`fetchone`); if none exists it reports failure
and leaves the database untouched; otherwise it runs
`UPDATE appointments SET available = 0, user_id = ? WHERE id = ?` and
reports the fetched row's id, date, time and doctor.  The `user_id`
argument is optional and defaults to `"demo_user"`
(`params.arguments.get("user_id", "demo_user")`). -/
def bookAppointment (db : HealthDB) (slotId : String)
    (userIdArg : Option String) : BookResult × HealthDB :=
  let userId := userIdArg.getD "demo_user"
  match db.appointments.find? (fun r => r.id == slotId && r.available) with
  | none =>
    ({ success := false, message := none,
       error := some "This appointment slot is not available or doesn\x27t exist.",
       appointment := none }, db)
  | some slot =>
    ({ success := true, message := some "Appointment booked successfully!",
       error := none,
       appointment := some
         { slotId := slot.id, date := slot.date, time := slot.time,
           doctor := slot.doctor, userId := userId } },
     { db with appointments :=
         db.appointments.map (fun r =>
           if r.id == slotId then
             { r with available := false, userId := some userId }
           else r) })

lemma truthyOpt_eq_true_iff (o : Option String) :
    truthyOpt o = true ↔ ∃ s, o = some s ∧ s ≠ "" := by
  cases o with
  | none =>
    constructor
    · intro h
      exact absurd h (by simp [truthyOpt])
    · rintro ⟨s, hs, _⟩
      cases hs
  | some s =>
    simp only [truthyOpt, Bool.not_eq_true', Option.some.injEq]
    constructor
    · intro h
      refine ⟨s, rfl, ?_⟩
      intro hs
      subst hs
      exact absurd h (by decide)
    · rintro ⟨t, rfl, ht⟩
      cases hse : s.isEmpty
      · rfl
      · exact absurd ((String.isEmpty_iff s).mp hse) ht

lemma pyConflictEvent_iff (slot : Slot) (e : CalEvent) (slotT : Nat)
    (hslot : pyParseTime slot.time = some slotT) :
    pyConflictEvent slot e = true ↔
      (dateLe e.startDate slot.date = true ∧ dateLe slot.date e.endDate = true ∧
        (e.allDay = true ∨
          ∃ st et startT endT, e.startTime = some st ∧ e.endTime = some et ∧
            st ≠ "" ∧ et ≠ "" ∧ pyParseTime st = some startT ∧
            pyParseTime et = some endT ∧ startT ≤ slotT ∧ slotT ≤ endT)) := by
  constructor
  · intro h
    simp only [pyConflictEvent, Bool.and_eq_true, Bool.or_eq_true] at h
    obtain ⟨⟨hd1, hd2⟩, hrest⟩ := h
    refine ⟨hd1, hd2, ?_⟩
    rcases hrest with hall | htimes
    · exact Or.inl hall
    right
    obtain ⟨⟨hts, hte⟩, hmatch⟩ := htimes
    rcases (truthyOpt_eq_true_iff _).mp hts with ⟨st, hst, hstne⟩
    rcases (truthyOpt_eq_true_iff _).mp hte with ⟨et, het, hetne⟩
    rw [hst, het] at hmatch
    simp only [Option.getD_some, hslot] at hmatch
    rcases h1 : pyParseTime st with _ | startT
    · rw [h1] at hmatch; simp at hmatch
    rcases h2 : pyParseTime et with _ | endT
    · rw [h1, h2] at hmatch; simp at hmatch
    rw [h1, h2] at hmatch
    simp only [Bool.and_eq_true, decide_eq_true_eq] at hmatch
    exact ⟨st, et, startT, endT, hst, het, hstne, hetne, h1, h2, hmatch.1, hmatch.2⟩
  · rintro ⟨hd1, hd2, h⟩
    simp only [pyConflictEvent, Bool.and_eq_true, Bool.or_eq_true]
    refine ⟨⟨hd1, hd2⟩, ?_⟩
    rcases h with hall | ⟨st, et, startT, endT, hst, het, hstne, hetne, h1, h2, hle1, hle2⟩
    · exact Or.inl hall
    right
    refine ⟨⟨(truthyOpt_eq_true_iff _).mpr ⟨st, hst, hstne⟩,
            (truthyOpt_eq_true_iff _).mpr ⟨et, het, hetne⟩⟩, ?_⟩
    rw [hst, het]
    simp only [Option.getD_some, hslot, h1, h2]
    simp [hle1, hle2]

/-- Claim C1: for a slot whose time parses in `%I:%M %p` format,
`_check_calendar_conflict` reports a conflict exactly when some event's
date range contains the slot date and either that event is all-day or it
has non-empty, parseable start and end times bracketing the slot time; in
particular a slot inside the date range of an all-day event always
conflicts. -/
theorem check_calendar_conflict_characterisation
    (slot : Slot) (events : List CalEvent) (slotT : Nat)
    (hslot : pyParseTime slot.time = some slotT) :
    ((checkCalendarConflict slot events).1 = true ↔
      ∃ e ∈ events,
        dateLe e.startDate slot.date = true ∧ dateLe slot.date e.endDate = true ∧
        (e.allDay = true ∨
          ∃ st et startT endT, e.startTime = some st ∧ e.endTime = some et ∧
            st ≠ "" ∧ et ≠ "" ∧ pyParseTime st = some startT ∧
            pyParseTime et = some endT ∧ startT ≤ slotT ∧ slotT ≤ endT)) ∧
    (∀ e ∈ events, e.allDay = true →
      dateLe e.startDate slot.date = true → dateLe slot.date e.endDate = true →
      (checkCalendarConflict slot events).1 = true) := by
  have hmain : (checkCalendarConflict slot events).1 = true ↔
      ∃ e ∈ events, pyConflictEvent slot e = true := by
    rw [checkCalendarConflict_fst, List.any_eq_true]
  constructor
  · rw [hmain]
    constructor
    · rintro ⟨e, hmem, he⟩
      exact ⟨e, hmem, (pyConflictEvent_iff slot e slotT hslot).mp he⟩
    · rintro ⟨e, hmem, he⟩
      exact ⟨e, hmem, (pyConflictEvent_iff slot e slotT hslot).mpr he⟩
  · intro e hmem hall hd1 hd2
    exact hmain.mpr ⟨e, hmem, (pyConflictEvent_iff slot e slotT hslot).mpr ⟨hd1, hd2, Or.inl hall⟩⟩

/-- Concrete instance of the C1 theorem: a slot at `"10:30 AM"` on
2025-06-10 against a single all-day event covering that date. -/
theorem check_calendar_conflict_characterisation_witness :
    (checkCalendarConflict { date := ⟨2025, 6, 10⟩, time := "10:30 AM" }
      [{ title := "vacation", startDate := ⟨2025, 6, 9⟩, endDate := ⟨2025, 6, 11⟩,
         allDay := true, startTime := none, endTime := none }]).1 = true :=
  (check_calendar_conflict_characterisation
      { date := ⟨2025, 6, 10⟩, time := "10:30 AM" }
      [{ title := "vacation", startDate := ⟨2025, 6, 9⟩, endDate := ⟨2025, 6, 11⟩,
         allDay := true, startTime := none, endTime := none }]
      630 (by decide)).2
    { title := "vacation", startDate := ⟨2025, 6, 9⟩, endDate := ⟨2025, 6, 11⟩,
      allDay := true, startTime := none, endTime := none }
    (by simp) rfl (by decide) (by decide)

/-- Claim C10: an event whose date range contains the slot date, whose
`all_day` flag is unset, and whose `start_time` and `end_time` are
non-empty but fail to parse in `%I:%M %p` format raises a `ValueError`
that is caught: the event contributes no conflict and the scan continues
with the remaining events, wherever the event sits in the list.  Totality
of `checkCalendarConflict` embeds the absence of an escaping exception. -/
theorem check_calendar_conflict_skips_malformed
    (slot : Slot) (e : CalEvent) (pre post : List CalEvent)
    (hd1 : dateLe e.startDate slot.date = true)
    (hd2 : dateLe slot.date e.endDate = true)
    (hall : e.allDay = false)
    (st et : String)
    (hst : e.startTime = some st) (het : e.endTime = some et)
    (hstne : st ≠ "") (hetne : et ≠ "")
    (hps : pyParseTime st = none) (hpe : pyParseTime et = none) :
    checkCalendarConflict slot (pre ++ e :: post) =
      checkCalendarConflict slot (pre ++ post) := by
  induction pre with
  | nil =>
    simp only [List.nil_append]
    rw [checkCalendarConflict]
    rw [if_pos (by rw [hd1, hd2]; rfl)]
    rw [if_neg (by simp [hall])]
    have ht1 : truthyOpt e.startTime = true :=
      (truthyOpt_eq_true_iff _).mpr ⟨st, hst, hstne⟩
    have ht2 : truthyOpt e.endTime = true :=
      (truthyOpt_eq_true_iff _).mpr ⟨et, het, hetne⟩
    rw [if_pos (by rw [ht1, ht2]; rfl)]
    rcases hx : pyParseTime slot.time with _ | v
    · simp only [hx, hst, het, Option.getD_some, hps, hpe]
    · simp only [hx, hst, het, Option.getD_some, hps, hpe]
  | cons e2 pre ih =>
    simp only [List.cons_append]
    rw [checkCalendarConflict, checkCalendarConflict]
    by_cases hc1 : (dateLe e2.startDate slot.date && dateLe slot.date e2.endDate) = true
    case neg => rw [if_neg hc1, if_neg hc1]; exact ih
    rw [if_pos hc1, if_pos hc1]
    by_cases hc2 : e2.allDay = true
    case pos => rw [if_pos hc2, if_pos hc2]
    rw [if_neg hc2, if_neg hc2]
    by_cases hc3 : (truthyOpt e2.startTime && truthyOpt e2.endTime) = true
    case neg => rw [if_neg hc3, if_neg hc3]; exact ih
    rw [if_pos hc3, if_pos hc3]
    rcases hx : pyParseTime slot.time with _ | v
    · simp only [hx]; exact ih
    rcases hy : pyParseTime (e2.startTime.getD "") with _ | v1
    · simp only [hx, hy]; exact ih
    rcases hz : pyParseTime (e2.endTime.getD "") with _ | v2
    · simp only [hx, hy, hz]; exact ih
    simp only [hx, hy, hz]
    by_cases hcmp : (v1 ≤ v && v ≤ v2) = true
    · rw [if_pos hcmp, if_pos hcmp]
    · rw [if_neg hcmp, if_neg hcmp]; exact ih

/-- Concrete instance of the C10 theorem: an event with unparseable times
`"9:99 PM"`/`"lunchtime"` on the slot date is skipped and the scan still
finds the conflict with the later all-day event. -/
theorem check_calendar_conflict_skips_malformed_witness :
    checkCalendarConflict { date := ⟨2025, 6, 10⟩, time := "10:30 AM" }
      ([] ++ { title := "oddly timed", startDate := ⟨2025, 6, 10⟩,
               endDate := ⟨2025, 6, 10⟩, allDay := false,
               startTime := some "9:99 PM", endTime := some "lunchtime" } ::
        [{ title := "vacation", startDate := ⟨2025, 6, 10⟩,
           endDate := ⟨2025, 6, 10⟩, allDay := true,
           startTime := none, endTime := none }]) =
      checkCalendarConflict { date := ⟨2025, 6, 10⟩, time := "10:30 AM" }
        ([] ++ [{ title := "vacation", startDate := ⟨2025, 6, 10⟩,
                  endDate := ⟨2025, 6, 10⟩, allDay := true,
                  startTime := none, endTime := none }]) :=
  check_calendar_conflict_skips_malformed
    { date := ⟨2025, 6, 10⟩, time := "10:30 AM" }
    { title := "oddly timed", startDate := ⟨2025, 6, 10⟩,
      endDate := ⟨2025, 6, 10⟩, allDay := false,
      startTime := some "9:99 PM", endTime := some "lunchtime" }
    []
    [{ title := "vacation", startDate := ⟨2025, 6, 10⟩,
       endDate := ⟨2025, 6, 10⟩, allDay := true,
       startTime := none, endTime := none }]
    (by decide) (by decide) rfl "9:99 PM" "lunchtime" rfl rfl
    (by decide) (by decide) (by decide) (by decide)

lemma find_available_eq_none_iff (db : HealthDB) (slotId : String) :
    db.appointments.find? (fun r => r.id == slotId && r.available) = none ↔
      ∀ r ∈ db.appointments, ¬(r.id = slotId ∧ r.available = true) := by
  rw [List.find?_eq_none]
  constructor
  · intro h r hr hc
    have := h r hr
    simp only [Bool.and_eq_true, beq_iff_eq] at this
    exact this ⟨hc.1, hc.2⟩
  · intro h r hr
    simp only [Bool.and_eq_true, beq_iff_eq]
    intro hc
    exact h r hr hc

/-- Claim C3: `book_appointment` succeeds exactly when a row with the
requested id and `available = 1` exists, and on success the returned
appointment echoes that row's date, time and doctor with the effective
user id (the supplied one, defaulting to `"demo_user"`), and the updated
table contains that row with `available` flipped to `0` and `user_id` set. -/
theorem book_appointment_success_characterisation
    (db : HealthDB) (slotId : String) (userIdArg : Option String)
    (hids : (db.appointments.map ApptRow.id).Nodup) :
    ((bookAppointment db slotId userIdArg).1.success = true ↔
      ∃ r ∈ db.appointments, r.id = slotId ∧ r.available = true) ∧
    (∀ r ∈ db.appointments, r.id = slotId → r.available = true →
      (bookAppointment db slotId userIdArg).1.appointment =
        some { slotId := r.id, date := r.date, time := r.time,
               doctor := r.doctor, userId := userIdArg.getD "demo_user" } ∧
      { r with available := false,
               userId := some (userIdArg.getD "demo_user") } ∈
        (bookAppointment db slotId userIdArg).2.appointments) := by
  constructor
  · rcases hf : db.appointments.find? (fun r => r.id == slotId && r.available) with _ | r0
    · rw [show (bookAppointment db slotId userIdArg).1.success = false by
        unfold bookAppointment; rw [hf]]
      simp only [Bool.false_eq_true, false_iff, not_exists]
      intro r hr
      exact (find_available_eq_none_iff db slotId).mp hf r hr.1 ⟨hr.2.1, hr.2.2⟩
    · rw [show (bookAppointment db slotId userIdArg).1.success = true by
        unfold bookAppointment; rw [hf]]
      simp only [true_iff]
      have hmem := List.mem_of_find?_eq_some hf
      have hp := List.find?_some hf
      simp only [Bool.and_eq_true, beq_iff_eq] at hp
      exact ⟨r0, hmem, hp.1, hp.2⟩
  · intro r hr hid hav
    have hfind : db.appointments.find? (fun q => q.id == slotId && q.available) = some r := by
      rcases hf : db.appointments.find? (fun q => q.id == slotId && q.available) with _ | r0
      · exact absurd ⟨hid, hav⟩ ((find_available_eq_none_iff db slotId).mp hf r hr)
      · have hmem0 := List.mem_of_find?_eq_some hf
        have hp0 := List.find?_some hf
        simp only [Bool.and_eq_true, beq_iff_eq] at hp0
        have : r0 = r := by
          have h1 : r0.id = r.id := hp0.1.trans hid.symm
          exact List.inj_on_of_nodup_map hids hmem0 hr h1
        exact hf.trans (congrArg some this)
    constructor
    · unfold bookAppointment
      rw [hfind]
    · unfold bookAppointment
      rw [hfind]
      simp only
      refine List.mem_map.mpr ⟨r, hr, ?_⟩
      rw [if_pos (by simp [hid])]

/-- Concrete instance of the C3 theorem: booking the sole available slot of
a one-row table succeeds. -/
theorem book_appointment_success_characterisation_witness :
    (bookAppointment
      { appointments := [{ id := "slot-1", date := ⟨2025, 6, 12⟩,
                           time := "09:00 AM", doctor := "Dr. Smith",
                           available := true, userId := none }],
        personalCalendar := [] } "slot-1" none).1.success = true :=
  (book_appointment_success_characterisation
      { appointments := [{ id := "slot-1", date := ⟨2025, 6, 12⟩,
                           time := "09:00 AM", doctor := "Dr. Smith",
                           available := true, userId := none }],
        personalCalendar := [] } "slot-1" none (by decide)).1.mpr
    ⟨{ id := "slot-1", date := ⟨2025, 6, 12⟩, time := "09:00 AM",
       doctor := "Dr. Smith", available := true, userId := none },
     by simp, rfl, rfl⟩

/-- Claim C4: a successful booking mutates only the `available` and
`user_id` columns of the rows matching the slot id: the personal calendar
is untouched, the appointments table keeps its length and row order, every
row keeps its `id`, `date`, `time` and `doctor`, and a row whose id is not
the booked one is unchanged entirely. -/
theorem book_appointment_frame
    (db : HealthDB) (slotId : String) (userIdArg : Option String)
    (hsucc : (bookAppointment db slotId userIdArg).1.success = true) :
    (bookAppointment db slotId userIdArg).2.personalCalendar =
      db.personalCalendar ∧
    List.Forall₂ (fun old new =>
        new.id = old.id ∧ new.date = old.date ∧ new.time = old.time ∧
        new.doctor = old.doctor ∧ (old.id ≠ slotId → new = old))
      db.appointments (bookAppointment db slotId userIdArg).2.appointments := by
  rcases hf : db.appointments.find? (fun r => r.id == slotId && r.available) with _ | r0
  · refine ⟨by unfold bookAppointment; rw [hf], ?_⟩
    have hdb : (bookAppointment db slotId userIdArg).2 = db := by
      unfold bookAppointment; rw [hf]
    rw [hdb]
    exact List.forall₂_same.mpr (fun r _ => ⟨rfl, rfl, rfl, rfl, fun _ => rfl⟩)
  · refine ⟨by unfold bookAppointment; rw [hf], ?_⟩
    have happts : (bookAppointment db slotId userIdArg).2.appointments =
        db.appointments.map (fun r =>
          if r.id == slotId then
            { r with available := false,
                     userId := some (userIdArg.getD "demo_user") }
          else r) := by
      unfold bookAppointment; rw [hf]
    rw [happts]
    rw [List.forall₂_map_right_iff]
    refine List.forall₂_same.mpr (fun r _ => ?_)
    by_cases h : r.id == slotId
    · rw [if_pos h]
      refine ⟨rfl, rfl, rfl, rfl, fun hne => ?_⟩
      exact absurd (by simpa using h) hne
    · rw [if_neg h]
      exact ⟨rfl, rfl, rfl, rfl, fun _ => rfl⟩

/-- Concrete instance of the C4 theorem: a successful booking in a two-row
table leaves the calendar and the other row unchanged. -/
theorem book_appointment_frame_witness :
    (bookAppointment
      { appointments := [{ id := "slot-1", date := ⟨2025, 6, 12⟩,
                           time := "09:00 AM", doctor := "Dr. Smith",
                           available := true, userId := none },
                         { id := "slot-2", date := ⟨2025, 6, 13⟩,
                           time := "10:00 AM", doctor := "Dr. Jones",
                           available := true, userId := none }],
        personalCalendar := [{ title := "vacation", startDate := ⟨2025, 6, 9⟩,
                               endDate := ⟨2025, 6, 11⟩, allDay := true,
                               startTime := none, endTime := none }] }
      "slot-1" (some "alice")).2.personalCalendar =
      [{ title := "vacation", startDate := ⟨2025, 6, 9⟩,
         endDate := ⟨2025, 6, 11⟩, allDay := true,
         startTime := none, endTime := none }] :=
  (book_appointment_frame
      { appointments := [{ id := "slot-1", date := ⟨2025, 6, 12⟩,
                           time := "09:00 AM", doctor := "Dr. Smith",
                           available := true, userId := none },
                         { id := "slot-2", date := ⟨2025, 6, 13⟩,
                           time := "10:00 AM", doctor := "Dr. Jones",
                           available := true, userId := none }],
        personalCalendar := [{ title := "vacation", startDate := ⟨2025, 6, 9⟩,
                               endDate := ⟨2025, 6, 11⟩, allDay := true,
                               startTime := none, endTime := none }] }
      "slot-1" (some "alice") (by decide)).1

/-- Claim C8: when no row has the requested id with `available = 1`,
`book_appointment` reports `success = False` with the exact error message
and leaves the database (in particular the appointments table) unchanged. -/
theorem book_appointment_failure_atomic
    (db : HealthDB) (slotId : String) (userIdArg : Option String)
    (hnone : ∀ r ∈ db.appointments, ¬(r.id = slotId ∧ r.available = true)) :
    (bookAppointment db slotId userIdArg).1 =
      { success := false, message := none,
        error := some "This appointment slot is not available or doesn\x27t exist.",
        appointment := none } ∧
    (bookAppointment db slotId userIdArg).2 = db := by
  have hf : db.appointments.find? (fun r => r.id == slotId && r.available) = none :=
    (find_available_eq_none_iff db slotId).mpr hnone
  constructor
  · unfold bookAppointment; rw [hf]
  · unfold bookAppointment; rw [hf]

/-- Concrete instance of the C8 theorem: booking an already-taken slot
fails and changes nothing. -/
theorem book_appointment_failure_atomic_witness :
    (bookAppointment
      { appointments := [{ id := "slot-1", date := ⟨2025, 6, 12⟩,
                           time := "09:00 AM", doctor := "Dr. Smith",
                           available := false, userId := some "bob" }],
        personalCalendar := [] } "slot-1" none).2 =
      { appointments := [{ id := "slot-1", date := ⟨2025, 6, 12⟩,
                           time := "09:00 AM", doctor := "Dr. Smith",
                           available := false, userId := some "bob" }],
        personalCalendar := [] } :=
  (book_appointment_failure_atomic
      { appointments := [{ id := "slot-1", date := ⟨2025, 6, 12⟩,
                           time := "09:00 AM", doctor := "Dr. Smith",
                           available := false, userId := some "bob" }],
        personalCalendar := [] } "slot-1" none (by decide)).2

/-- Python substring containment (`pat in s`), on character lists. -/
def hasSub (s pat : List Char) : Bool :=
  pat.isPrefixOf s ||
    match s with
    | [] => false
    | _ :: t => hasSub t pat

/-- Python substring containment on Lean strings. -/
def containsStr (s pat : String) : Bool := hasSub s.data pat.data

/-- The literal `find_str = "\"SUCCESS\": false"` of `auto_process`. -/
def findStr : String := "\"SUCCESS\": false"

/-- The values `auto_process` can return: the node name `"human"` or the
LangGraph `END` sentinel. -/
inductive Route where
  | human
  | END
deriving DecidableEq, Repr

/-- `auto_process(state)`: reads `state["messages"][-1].content` (an
`IndexError` on an empty message list is modelled as `none`), and returns
`"human"` when the content contains `"SUCCESS": false`, `END` otherwise.
The state's message list is embedded as the list of message contents. -/
def autoProcess (messages : List String) : Option Route :=
  match messages.getLast? with
  | none => none
  | some last => some (if containsStr last findStr then Route.human else Route.END)

/-- Claim C5: on a non-empty message list, `auto_process` returns `"human"`
exactly when the last message content contains `"SUCCESS": false` and
`END` otherwise, and the decision depends on nothing but the last message
content. -/
theorem auto_process_characterisation (messages : List String)
    (h : messages ≠ []) :
    (autoProcess messages =
      some (if containsStr (messages.getLast h) findStr then Route.human
            else Route.END)) ∧
    (autoProcess messages = some Route.human ↔
      containsStr (messages.getLast h) findStr = true) ∧
    (∀ (ms2 : List String) (h2 : ms2 ≠ []),
      ms2.getLast h2 = messages.getLast h →
      autoProcess ms2 = autoProcess messages) := by
  have heq : ∀ (l : List String) (hl : l ≠ []),
      autoProcess l =
        some (if containsStr (l.getLast hl) findStr then Route.human
              else Route.END) := by
    intro l hl
    unfold autoProcess
    rw [List.getLast?_eq_getLast l hl]
  refine ⟨heq messages h, ?_, ?_⟩
  · rw [heq messages h]
    by_cases hc : containsStr (messages.getLast h) findStr = true
    · simp [hc]
    · simp only [Bool.not_eq_true] at hc
      simp [hc]
  · intro ms2 h2 hlast
    rw [heq ms2 h2, heq messages h, hlast]

/-- Concrete instance of the C5 theorem: a last message carrying the
failure marker routes to `"human"`. -/
theorem auto_process_characterisation_witness :
    autoProcess ["extracted fields", "rule check: \"SUCCESS\": false"] =
      some Route.human :=
  (auto_process_characterisation
      ["extracted fields", "rule check: \"SUCCESS\": false"]
      (by decide)).2.1.mpr (by decide)

/-- A LangGraph retry policy; only its presence on a node registration
matters to the claims (the commented-out code would have used
`RetryPolicy(max_attempts=3)`). -/
structure RetryPolicy where
  maxAttempts : Nat
deriving DecidableEq, Repr

/-- One `builder.add_node(name, fn, retry=...)` registration; the node
callable itself plays no role in the wiring claims. -/
structure NodeReg where
  name : String
  retry : Option RetryPolicy
deriving DecidableEq, Repr

/-- LangGraph's `START` sentinel node name. -/
def START_NODE : String := "__start__"

/-- LangGraph's `END` sentinel node name. -/
def END_NODE : String := "__end__"

/-- A `StateGraph` under construction: its node registrations, plain edges,
and conditional edges (source node plus router function). -/
structure GraphBuilder where
  nodes : List NodeReg
  edges : List (String × String)
  condEdges : List (String × (List String → Option Route))

/-- The `StateGraph` builder assembled in `vision-model.py`:
`add_node` for `extraction`, `rule`, `human` and `api` (none with a retry
argument), `add_edge(START, "extraction")`, `add_edge("extraction",
"rule")`, `add_conditional_edges("rule", auto_process)`,
`add_edge("human", END)` and `add_edge("api", END)`.  The
`add_node("store", external_storage_node, retry=RetryPolicy(max_attempts=3))`
and `add_edge("store", "rule")` lines are commented out in the source and
register nothing. -/
def builder : GraphBuilder where
  nodes := [{ name := "extraction", retry := none },
            { name := "rule", retry := none },
            { name := "human", retry := none },
            { name := "api", retry := none }]
  edges := [(START_NODE, "extraction"), ("extraction", "rule"),
            ("human", END_NODE), ("api", END_NODE)]
  condEdges := [("rule", autoProcess)]

/-- The node a `Route` value sends execution to. -/
def routeTarget : Route → String
  | Route.human => "human"
  | Route.END => END_NODE

/-- Claim C6: the wired graph consists of exactly the nodes `extraction`,
`rule`, `human` and `api`, the edges `START -> extraction`,
`extraction -> rule`, `human -> END` and `api -> END`, a single
conditional edge out of `rule`, and no node — in particular no `store`
node — carries a `RetryPolicy`. -/
theorem graph_wiring_no_retry :
    builder.nodes.map NodeReg.name = ["extraction", "rule", "human", "api"] ∧
    (∀ n ∈ builder.nodes, n.retry = none) ∧
    builder.edges = [(START_NODE, "extraction"), ("extraction", "rule"),
                     ("human", END_NODE), ("api", END_NODE)] ∧
    builder.condEdges.map Prod.fst = ["rule"] ∧
    "store" ∉ builder.nodes.map NodeReg.name := by
  refine ⟨rfl, ?_, rfl, rfl, by decide⟩
  intro n hn
  simp only [builder, List.mem_cons, List.not_mem_nil, or_false] at hn
  rcases hn with rfl | rfl | rfl | rfl <;> rfl

/-- One execution step of the compiled graph: either a plain edge of the
builder, or the conditional edge firing its router on some state. -/
inductive GStep : String → String → Prop where
  | edge : ∀ a b, (a, b) ∈ builder.edges → GStep a b
  | cond : ∀ (n : String) (f : List String → Option Route)
      (msgs : List String) (r : Route),
      (n, f) ∈ builder.condEdges → f msgs = some r → GStep n (routeTarget r)

/-- Nodes reachable from `START` in the compiled graph. -/
def GReachable (n : String) : Prop := Relation.ReflTransGen GStep START_NODE n

/-- Claim C9: the `api` node is unreachable: every node reachable from
`START` is distinct from `"api"`, because the only router `auto_process`
can only route to `"human"` or `END` and no plain edge targets `"api"`. -/
theorem api_node_unreachable (n : String) (h : GReachable n) : n ≠ "api" := by
  have inv : ∀ m, GReachable m →
      m ∈ ["__start__", "extraction", "rule", "human", "__end__"] := by
    intro m hm
    induction hm with
    | refl => decide
    | tail _ hstep ih =>
      cases hstep with
      | edge a hmem =>
        simp only [builder, START_NODE, END_NODE, List.mem_cons,
          List.not_mem_nil, or_false, Prod.mk.injEq] at hmem
        rcases hmem with ⟨_, rfl⟩ | ⟨_, rfl⟩ | ⟨_, rfl⟩ | ⟨_, rfl⟩ <;> decide
      | cond f msgs r hmem hfr =>
        cases r with
        | human => decide
        | END => decide
  intro hapi
  subst hapi
  exact absurd (inv "api" h) (by decide)

/-- Concrete instance of the C9 theorem: the `extraction` node, reached by
the `START -> extraction` edge, is not the `api` node. -/
theorem api_node_unreachable_witness : "extraction" ≠ "api" :=
  api_node_unreachable "extraction"
    (Relation.ReflTransGen.single
      (GStep.edge START_NODE "extraction" (by decide)))

/-- One expense record passed to `track_expenses`; `category` and `amount`
are read with `expense.get('category', 'miscellaneous')` and
`expense.get('amount', 0)`, so either may be absent.  Numeric amounts are
embedded as rationals. -/
structure Expense where
  category : Option String
  amount : Option ℚ
deriving DecidableEq, Repr

/-- `expense.get('category', 'miscellaneous')`. -/
def Expense.cat (e : Expense) : String := e.category.getD "miscellaneous"

/-- `expense.get('amount', 0)`. -/
def Expense.amt (e : Expense) : ℚ := e.amount.getD 0

/-- The per-category accumulator dict `{'total': ..., 'entries': [...]}`. -/
structure CatAcc where
  total : ℚ
  entries : List Expense
deriving DecidableEq, Repr

/-- In-place update of the value at key `c` of an insertion-ordered dict,
embedded as an association list. -/
def updateCat (m : List (String × CatAcc)) (c : String)
    (f : CatAcc → CatAcc) : List (String × CatAcc) :=
  match m with
  | [] => []
  | (k, v) :: rest =>
    if k == c then (k, f v) :: rest else (k, v) :: updateCat rest c f

/-- The loop body of `track_expenses` on `expense_by_category`: insert an
empty accumulator for a new category (Python dicts append new keys at the
end), then add the amount to the total and append the entry. -/
def addExpense (m : List (String × CatAcc)) (e : Expense) :
    List (String × CatAcc) :=
  let c := e.cat
  let m1 := if (m.lookup c).isSome then m else m ++ [(c, { total := 0, entries := [] })]
  updateCat m1 c (fun acc =>
    { total := acc.total + e.amt, entries := acc.entries ++ [e] })

/-- One iteration of the expense loop: updates the category dict and the
running `total_expenses`. -/
def trackFoldStep (p : List (String × CatAcc) × ℚ) (e : Expense) :
    List (String × CatAcc) × ℚ :=
  (addExpense p.1 e, p.2 + e.amt)

/-- The per-category entry of `budget_status`.  The code rounds
`utilization_percent` with `round(utilization, 2)` for display; the
embedding keeps the unrounded value, which no claim touches. -/
structure CatStatus where
  budgetLimit : ℚ
  spent : ℚ
  remaining : ℚ
  utilizationPercent : ℚ
  status : String
deriving DecidableEq, Repr

/-- The `expense_tracking` dictionary returned by `track_expenses`. -/
structure TrackResult where
  totalExpenses : ℚ
  totalBudget : ℚ
  overallRemaining : ℚ
  categoryBreakdown : List (String × CatStatus)
  expenseDetails : List (String × CatAcc)
deriving DecidableEq, Repr

/-- `track_expenses(expense_entries, budget_limits)`: groups the entries by
category while summing `total_expenses`, then builds `budget_status` by
iterating over `budget_limits` (a Python dict, embedded as an association
list with distinct keys). -/
def trackExpenses (entries : List Expense)
    (budgetLimits : List (String × ℚ)) : TrackResult :=
  let folded := entries.foldl trackFoldStep ([], 0)
  let totalBudget := (budgetLimits.map Prod.snd).sum
  let breakdown := budgetLimits.map (fun p =>
    let spent := ((folded.1.lookup p.1).map CatAcc.total).getD 0
    let remaining := p.2 - spent
    (p.1,
      { budgetLimit := p.2, spent := spent, remaining := remaining,
        utilizationPercent := if 0 < p.2 then spent / p.2 * 100 else 0,
        status := if 0 ≤ remaining then "within_budget" else "over_budget" }))
  { totalExpenses := folded.2, totalBudget := totalBudget,
    overallRemaining := totalBudget - folded.2,
    categoryBreakdown := breakdown, expenseDetails := folded.1 }

/-- The spent total recorded for category `c` in the grouping dict
(`expense_by_category.get(c, {}).get('total', 0)`). -/
def spentOf (m : List (String × CatAcc)) (c : String) : ℚ :=
  ((m.lookup c).map CatAcc.total).getD 0

lemma trackFold_snd (entries : List Expense) (m : List (String × CatAcc)) (q : ℚ) :
    (entries.foldl trackFoldStep (m, q)).2 = q + (entries.map Expense.amt).sum := by
  induction entries generalizing m q with
  | nil => simp
  | cons e rest ih =>
    simp only [List.foldl_cons, trackFoldStep, List.map_cons, List.sum_cons]
    rw [ih]
    ring

lemma lookup_updateCat_self (m : List (String × CatAcc)) (c : String)
    (f : CatAcc → CatAcc) :
    (updateCat m c f).lookup c = (m.lookup c).map f := by
  induction m with
  | nil => rfl
  | cons kv rest ih =>
    obtain ⟨k, v⟩ := kv
    by_cases h : (k == c) = true
    · simp [updateCat, h, List.lookup, beq_iff_eq.mp h]
    · simp only [Bool.not_eq_true] at h
      simp [updateCat, h, List.lookup, ih,
        show (c == k) = false by
          rw [beq_eq_false_iff_ne]
          intro hc
          subst hc
          simp at h]

lemma lookup_updateCat_other (m : List (String × CatAcc)) (c k2 : String)
    (f : CatAcc → CatAcc) (h : c ≠ k2) :
    (updateCat m k2 f).lookup c = m.lookup c := by
  induction m with
  | nil => rfl
  | cons kv rest ih =>
    obtain ⟨k, v⟩ := kv
    by_cases hk : (k == k2) = true
    · have : (c == k) = false := by
        rw [beq_eq_false_iff_ne]
        intro hc
        exact h (hc.trans (beq_iff_eq.mp hk))
      simp [updateCat, hk, List.lookup, this]
    · simp only [Bool.not_eq_true] at hk
      simp only [updateCat, hk, Bool.false_eq_true, if_false]
      by_cases hc : (c == k) = true
      · simp [List.lookup, hc]
      · simp only [Bool.not_eq_true] at hc
        simp [List.lookup, hc, ih]

lemma lookup_append_right_new (m : List (String × CatAcc)) (c : String)
    (v : CatAcc) (h : m.lookup c = none) :
    (m ++ [(c, v)]).lookup c = some v := by
  induction m with
  | nil => simp [List.lookup]
  | cons kv rest ih =>
    obtain ⟨k, w⟩ := kv
    by_cases hc : (c == k) = true
    · simp [List.lookup, hc] at h
    · simp only [Bool.not_eq_true] at hc
      simp only [List.lookup, hc] at h
      simp [List.lookup, hc, ih h]

lemma lookup_append_right_other (m : List (String × CatAcc)) (c k2 : String)
    (v : CatAcc) (h : c ≠ k2) :
    (m ++ [(k2, v)]).lookup c = m.lookup c := by
  induction m with
  | nil =>
    simp [List.lookup, show (c == k2) = false by rwa [beq_eq_false_iff_ne]]
  | cons kv rest ih =>
    obtain ⟨k, w⟩ := kv
    by_cases hc : (c == k) = true
    · simp [List.lookup, hc]
    · simp only [Bool.not_eq_true] at hc
      simp [List.lookup, hc, ih]

lemma spentOf_addExpense (m : List (String × CatAcc)) (e : Expense) (c : String) :
    spentOf (addExpense m e) c =
      if e.cat = c then spentOf m c + e.amt else spentOf m c := by
  unfold addExpense
  rcases ho : m.lookup e.cat with _ | acc
  · simp only [ho, Option.isSome_none, Bool.false_eq_true, if_false]
    by_cases hc : e.cat = c
    · subst hc
      rw [if_pos rfl]
      simp only [spentOf]
      rw [lookup_updateCat_self, lookup_append_right_new m e.cat _ ho]
      simp [ho]
    · rw [if_neg hc]
      simp only [spentOf]
      rw [lookup_updateCat_other _ c e.cat _ (Ne.symm hc),
          lookup_append_right_other m c e.cat _ (Ne.symm hc)]
  · simp only [ho, Option.isSome_some, if_true]
    by_cases hc : e.cat = c
    · subst hc
      simp [spentOf, lookup_updateCat_self, ho]
    · rw [if_neg hc]
      simp only [spentOf]
      rw [lookup_updateCat_other _ c e.cat _ (Ne.symm hc)]

lemma trackFold_spent (entries : List Expense) (m : List (String × CatAcc))
    (q : ℚ) (c : String) :
    spentOf ((entries.foldl trackFoldStep (m, q)).1) c =
      spentOf m c +
        ((entries.filter (fun e => e.cat == c)).map Expense.amt).sum := by
  induction entries generalizing m q with
  | nil => simp
  | cons e rest ih =>
    simp only [List.foldl_cons, trackFoldStep]
    rw [ih]
    by_cases hc : e.cat = c
    · rw [spentOf_addExpense, if_pos hc]
      simp [List.filter_cons, hc, add_assoc]
    · rw [spentOf_addExpense, if_neg hc]
      have : (e.cat == c) = false := by rwa [beq_eq_false_iff_ne]
      simp [List.filter_cons, this]

lemma lookup_map_keys (limits : List (String × ℚ))
    (g : String × ℚ → CatStatus) (c : String) (l : ℚ)
    (hnodup : (limits.map Prod.fst).Nodup) (hmem : (c, l) ∈ limits) :
    (limits.map (fun p => (p.1, g p))).lookup c = some (g (c, l)) := by
  induction limits with
  | nil => cases hmem
  | cons kv rest ih =>
    obtain ⟨k, v⟩ := kv
    simp only [List.map_cons, List.nodup_cons] at hnodup
    rcases List.mem_cons.mp hmem with heq | hrest
    · rw [Prod.mk.injEq] at heq
      obtain ⟨rfl, rfl⟩ := heq
      simp [List.lookup]
    · have hkc : (c == k) = false := by
        rw [beq_eq_false_iff_ne]
        intro hc
        subst hc
        exact hnodup.1 (List.mem_map.mpr ⟨(c, l), hrest, rfl⟩)
      simp only [List.map_cons, List.lookup, hkc]
      exact ih hnodup.2 hrest

/-- Claim C7: `track_expenses` is pure accounting: `total_expenses` is the
sum of all entry amounts, `overall_remaining` is the sum of the budget
limits minus `total_expenses`, and for each budgeted category the reported
`spent` is the sum of that category's entry amounts, `remaining` is the
limit minus `spent`, and the status is `within_budget` exactly when
`remaining` is non-negative. -/
theorem track_expenses_accounting (entries : List Expense)
    (budgetLimits : List (String × ℚ))
    (hkeys : (budgetLimits.map Prod.fst).Nodup) :
    (trackExpenses entries budgetLimits).totalExpenses =
      (entries.map Expense.amt).sum ∧
    (trackExpenses entries budgetLimits).overallRemaining =
      (budgetLimits.map Prod.snd).sum - (entries.map Expense.amt).sum ∧
    ∀ c l, (c, l) ∈ budgetLimits →
      ∃ st, (trackExpenses entries budgetLimits).categoryBreakdown.lookup c =
          some st ∧
        st.spent = ((entries.filter (fun e => e.cat == c)).map Expense.amt).sum ∧
        st.budgetLimit = l ∧
        st.remaining = l - st.spent ∧
        (st.status = "within_budget" ↔ 0 ≤ l - st.spent) := by
  have htot : (entries.foldl trackFoldStep ([], 0)).2 =
      (entries.map Expense.amt).sum := by
    rw [trackFold_snd]
    ring
  refine ⟨?_, ?_, ?_⟩
  · simp only [trackExpenses]
    exact htot
  · simp only [trackExpenses]
    rw [htot]
  · intro c l hmem
    have hspent : spentOf (entries.foldl trackFoldStep ([], 0)).1 c =
        ((entries.filter (fun e => e.cat == c)).map Expense.amt).sum := by
      rw [trackFold_spent]
      simp [spentOf]
    refine ⟨{ budgetLimit := l,
              spent := spentOf (entries.foldl trackFoldStep ([], 0)).1 c,
              remaining := l - spentOf (entries.foldl trackFoldStep ([], 0)).1 c,
              utilizationPercent :=
                if 0 < l then
                  spentOf (entries.foldl trackFoldStep ([], 0)).1 c / l * 100
                else 0,
              status :=
                if 0 ≤ l - spentOf (entries.foldl trackFoldStep ([], 0)).1 c then
                  "within_budget"
                else "over_budget" }, ?_, hspent, rfl, rfl, ?_⟩
    · show (trackExpenses entries budgetLimits).categoryBreakdown.lookup c = _
      simp only [trackExpenses]
      exact lookup_map_keys budgetLimits
        (fun p =>
          { budgetLimit := p.2,
            spent := spentOf (entries.foldl trackFoldStep ([], 0)).1 p.1,
            remaining := p.2 - spentOf (entries.foldl trackFoldStep ([], 0)).1 p.1,
            utilizationPercent :=
              if 0 < p.2 then
                spentOf (entries.foldl trackFoldStep ([], 0)).1 p.1 / p.2 * 100
              else 0,
            status :=
              if 0 ≤ p.2 - spentOf (entries.foldl trackFoldStep ([], 0)).1 p.1 then
                "within_budget"
              else "over_budget" })
        c l hkeys hmem
    · show (if 0 ≤ l - spentOf (entries.foldl trackFoldStep ([], 0)).1 c then
          "within_budget" else "over_budget") = "within_budget" ↔
          0 ≤ l - spentOf (entries.foldl trackFoldStep ([], 0)).1 c
      by_cases hrem : 0 ≤ l - spentOf (entries.foldl trackFoldStep ([], 0)).1 c
      · simp [hrem]
      · simp [hrem]

/-- Concrete instance of the C7 theorem: two expenses against a single
`food` budget. -/
theorem track_expenses_accounting_witness :
    (trackExpenses
      [{ category := some "food", amount := some 50 },
       { category := none, amount := some 10 }]
      [("food", 100)]).totalExpenses =
      ([{ category := some "food", amount := some (50 : ℚ) },
        { category := none, amount := some 10 }].map Expense.amt).sum :=
  (track_expenses_accounting
      [{ category := some "food", amount := some 50 },
       { category := none, amount := some 10 }]
      [("food", 100)] (by decide)).1

/-- The ASCII digit character for `n` (used to state what the SQL time
conversion produces on canonical inputs). -/
def digitChar10 (n : Nat) : Char := Char.ofNat (48 + n)

/-- The normalised `HH:MM:00` text SQLite's `time()` returns for hour `h`
and minute `m`. -/
def padHMS (h m : Nat) : List Char :=
  [digitChar10 (h / 10), digitChar10 (h % 10), ':',
   digitChar10 (m / 10), digitChar10 (m % 10), ':', '0', '0']

/-- A time string is canonical when Python parses it and the SQL conversion
produces exactly the corresponding normalised 24-hour text — i.e. the two
readings of the column agree.  (`t < 1440` is automatic for any parsed
time-of-day and is recorded to keep the comparison bridge self-contained.)
The canonical strings are `"hh:MM AM"` with zero-padded hour `01`–`11` and
`"12:MM PM"` (and trivial variants of these with extra separator spaces);
a string like `"02:00 PM"` or `"9:30 AM"` parses in Python but makes the
SQL conversion `NULL`. -/
def timeAgrees (s : String) : Bool :=
  match pyParseTime s with
  | some t =>
    decide (t < 1440) && (sqlTimeConv s == some (padHMS (t / 60) (t % 60)))
  | none => false

lemma digitChar10_toNat (a : Nat) (h : a < 10) :
    (digitChar10 a).toNat = 48 + a := by
  unfold digitChar10
  interval_cases a <;> decide

lemma memLt_padHMS (a1 b1 a2 b2 : Nat) (ha1 : a1 < 100) (hb1 : b1 < 60)
    (ha2 : a2 < 100) (hb2 : b2 < 60) :
    memLt (padHMS a1 b1) (padHMS a2 b2) =
      decide (a1 * 60 + b1 < a2 * 60 + b2) := by
  have d1 := digitChar10_toNat (a1 / 10) (by omega)
  have d2 := digitChar10_toNat (a1 % 10) (by omega)
  have d3 := digitChar10_toNat (b1 / 10) (by omega)
  have d4 := digitChar10_toNat (b1 % 10) (by omega)
  have d5 := digitChar10_toNat (a2 / 10) (by omega)
  have d6 := digitChar10_toNat (a2 % 10) (by omega)
  have d7 := digitChar10_toNat (b2 / 10) (by omega)
  have d8 := digitChar10_toNat (b2 % 10) (by omega)
  simp only [padHMS, memLt, d1, d2, d3, d4, d5, d6, d7, d8,
    lt_self_iff_false, if_false]
  split_ifs <;>
    first
      | (symm; rw [decide_eq_true_iff]; omega)
      | (symm; rw [decide_eq_false_iff_not]; omega)

lemma memLe_padHMS (t1 t2 : Nat) (h1 : t1 < 1440) (h2 : t2 < 1440) :
    memLe (padHMS (t1 / 60) (t1 % 60)) (padHMS (t2 / 60) (t2 % 60)) =
      decide (t1 ≤ t2) := by
  rw [memLe, memLt_padHMS _ _ _ _ (by omega) (by omega) (by omega) (by omega)]
  by_cases h : t2 / 60 * 60 + t2 % 60 < t1 / 60 * 60 + t1 % 60
  · rw [decide_eq_true h]
    symm
    simp only [Bool.not_true]
    rw [decide_eq_false_iff_not]
    omega
  · rw [decide_eq_false h]
    symm
    simp only [Bool.not_false]
    rw [decide_eq_true_iff]
    omega

lemma timeAgrees_spec (s : String) (h : timeAgrees s = true) :
    ∃ t, pyParseTime s = some t ∧ t < 1440 ∧
      sqlTimeConv s = some (padHMS (t / 60) (t % 60)) := by
  unfold timeAgrees at h
  rcases hp : pyParseTime s with _ | t
  · rw [hp] at h; cases h
  · rw [hp] at h
    simp only [Bool.and_eq_true, decide_eq_true_eq, beq_iff_eq] at h
    exact ⟨t, rfl, h.1, h.2⟩

lemma pyParseTime_empty : pyParseTime "" = none := rfl

lemma timeAgrees_ne_empty (s : String) (h : timeAgrees s = true) : s ≠ "" := by
  intro hs
  subst hs
  cases h

lemma list_any_congr {α : Type} (l : List α) (p q : α → Bool)
    (h : ∀ x ∈ l, p x = q x) : l.any p = l.any q := by
  induction l with
  | nil => rfl
  | cons x rest ih =>
    simp only [List.any_cons]
    rw [h x (by simp), ih (fun y hy => h y (by simp [hy]))]

lemma sqlClash_eq_pyConflictEvent (a : ApptRow) (pc : CalEvent)
    (hslot : timeAgrees a.time = true)
    (hst : ∀ s, pc.startTime = some s → timeAgrees s = true)
    (het : ∀ s, pc.endTime = some s → timeAgrees s = true) :
    sqlClash a pc = pyConflictEvent { date := a.date, time := a.time } pc := by
  unfold sqlClash pyConflictEvent
  by_cases hall : pc.allDay = true
  · rw [hall]
    simp
  · simp only [Bool.not_eq_true] at hall
    rw [hall]
    simp only [Bool.false_or, Bool.not_false, Bool.true_and]
    congr 1
    rcases hs1 : pc.startTime with _ | s1
    · simp [truthyOpt]
    rcases hs2 : pc.endTime with _ | s2
    · simp [truthyOpt]
    obtain ⟨tS, hpS, hbS, hcS⟩ := timeAgrees_spec a.time hslot
    obtain ⟨t1, hp1, hb1, hc1⟩ := timeAgrees_spec s1 (hst s1 hs1)
    obtain ⟨t2, hp2, hb2, hc2⟩ := timeAgrees_spec s2 (het s2 hs2)
    have e1 : truthyOpt (some s1) = true :=
      (truthyOpt_eq_true_iff _).mpr ⟨s1, rfl, timeAgrees_ne_empty s1 (hst s1 hs1)⟩
    have e2 : truthyOpt (some s2) = true :=
      (truthyOpt_eq_true_iff _).mpr ⟨s2, rfl, timeAgrees_ne_empty s2 (het s2 hs2)⟩
    simp only [Option.getD_some, Option.isSome_some, e1, e2, hcS, hc1, hc2,
      hpS, hp1, hp2, Bool.true_and, Bool.and_true]
    rw [memLe_padHMS t1 tS hb1 hbS, memLe_padHMS tS t2 hbS hb2]

/-- Claim C2 (amended): the SQL clash filter of `get_non_clashing_slots`
agrees with the Python checker `_check_calendar_conflict` for an available
slot matching the doctor filter and not on the excluded date, provided the
slot's time and every time present on a calendar event are canonical
(`timeAgrees`): the slot appears in the result exactly when the Python
checker reports no conflict.  Outside the canonical forms the two sides
genuinely diverge (see the counterexample theorem). -/
theorem get_non_clashing_slots_agrees_on_canonical_times
    (db : HealthDB) (doctorLike : String → Bool)
    (unavailableDate : Option Date) (a : ApptRow)
    (hmem : a ∈ db.appointments)
    (hids : (db.appointments.map ApptRow.id).Nodup)
    (hav : a.available = true) (hdoc : doctorLike a.doctor = true)
    (hund : unavailableDate ≠ some a.date)
    (hslot : timeAgrees a.time = true)
    (hcal : ∀ pc ∈ db.personalCalendar, ∀ s,
      pc.startTime = some s ∨ pc.endTime = some s → timeAgrees s = true) :
    toSlotOut a ∈ getNonClashingSlots db doctorLike unavailableDate ↔
      (checkCalendarConflict { date := a.date, time := a.time }
        db.personalCalendar).1 = false := by
  have hanyeq : db.personalCalendar.any (fun pc => sqlClash a pc) =
      db.personalCalendar.any
        (pyConflictEvent { date := a.date, time := a.time }) := by
    apply list_any_congr
    intro pc hpc
    exact sqlClash_eq_pyConflictEvent a pc hslot
      (fun s hs => hcal pc hpc s (Or.inl hs))
      (fun s hs => hcal pc hpc s (Or.inr hs))
  have hmatch : notOnUnavailableDate unavailableDate a.date = true := by
    cases unavailableDate with
    | none => rfl
    | some u =>
      have hne : ¬(a.date = u) := fun h => hund (by rw [h])
      simp only [notOnUnavailableDate, Bool.not_eq_true']
      rw [beq_eq_false_iff_ne]
      exact fun h => hne h
  unfold getNonClashingSlots
  rw [List.mem_map]
  constructor
  · rintro ⟨r, hrf, hre⟩
    have hrmem := List.mem_of_mem_filter hrf
    have hrid : r.id = a.id := congrArg SlotOut.id hre
    have hra : r = a := List.inj_on_of_nodup_map hids hrmem hmem hrid
    subst hra
    have hpred := List.of_mem_filter hrf
    simp only [Bool.and_eq_true] at hpred
    have hnc := hpred.2
    rw [Bool.not_eq_true'] at hnc
    rw [checkCalendarConflict_fst, ← hanyeq]
    exact hnc
  · intro hnoc
    rw [checkCalendarConflict_fst, ← hanyeq] at hnoc
    refine ⟨a, List.mem_filter.mpr ⟨hmem, ?_⟩, rfl⟩
    simp only [Bool.and_eq_true]
    exact ⟨⟨⟨hav, hdoc⟩, hmatch⟩, by rw [Bool.not_eq_true', hnoc]⟩

/-- Concrete instance of the amended C2 theorem: a canonical-time slot
(`"10:30 AM"`) against a canonical timed event (`"09:00 AM"`–`"11:00 AM"`)
is excluded by the SQL filter exactly as the Python checker conflicts. -/
theorem get_non_clashing_slots_agrees_on_canonical_times_witness :
    ¬(toSlotOut { id := "a1", date := ⟨2025, 6, 10⟩, time := "10:30 AM",
                  doctor := "Dr. Smith", available := true, userId := none } ∈
      getNonClashingSlots
        { appointments := [{ id := "a1", date := ⟨2025, 6, 10⟩,
                             time := "10:30 AM", doctor := "Dr. Smith",
                             available := true, userId := none }],
          personalCalendar := [{ title := "checkup",
                                 startDate := ⟨2025, 6, 10⟩,
                                 endDate := ⟨2025, 6, 10⟩, allDay := false,
                                 startTime := some "09:00 AM",
                                 endTime := some "11:00 AM" }] }
        (fun _ => true) none) := by
  intro hin
  have h := (get_non_clashing_slots_agrees_on_canonical_times
      { appointments := [{ id := "a1", date := ⟨2025, 6, 10⟩,
                           time := "10:30 AM", doctor := "Dr. Smith",
                           available := true, userId := none }],
        personalCalendar := [{ title := "checkup",
                               startDate := ⟨2025, 6, 10⟩,
                               endDate := ⟨2025, 6, 10⟩, allDay := false,
                               startTime := some "09:00 AM",
                               endTime := some "11:00 AM" }] }
      (fun _ => true) none
      { id := "a1", date := ⟨2025, 6, 10⟩, time := "10:30 AM",
        doctor := "Dr. Smith", available := true, userId := none }
      (by simp) (by decide) rfl rfl (by decide) (by decide)
      (by
        intro pc hpc s hs
        rw [List.mem_singleton] at hpc
        subst hpc
        rcases hs with hs | hs
        · injection hs with hs2
          subst hs2
          decide
        · injection hs with hs2
          subst hs2
          decide)).mp hin
  exact absurd h (by decide)

/-- Counterexample to claim C2 as stated: the slot `"02:00 PM"` on
2025-06-10 is returned by the SQL query (the conversion
`time('02:00:00' || '+12 hours')` is `NULL`, so the `EXISTS` clause sees
no clash) even though `_check_calendar_conflict` finds a conflict with the
`"01:00 PM"`–`"03:00 PM"` event — both times are well-formed `%I:%M %p`
strings, refuting the claimed agreement. -/
theorem get_non_clashing_slots_sql_divergence :
    (checkCalendarConflict { date := ⟨2025, 6, 10⟩, time := "02:00 PM" }
      [{ title := "busy", startDate := ⟨2025, 6, 10⟩,
         endDate := ⟨2025, 6, 10⟩, allDay := false,
         startTime := some "01:00 PM", endTime := some "03:00 PM" }]).1
      = true ∧
    getNonClashingSlots
      { appointments := [{ id := "a1", date := ⟨2025, 6, 10⟩,
                           time := "02:00 PM", doctor := "Dr. Smith",
                           available := true, userId := none }],
        personalCalendar := [{ title := "busy", startDate := ⟨2025, 6, 10⟩,
                               endDate := ⟨2025, 6, 10⟩, allDay := false,
                               startTime := some "01:00 PM",
                               endTime := some "03:00 PM" }] }
      (fun _ => true) none =
      [toSlotOut { id := "a1", date := ⟨2025, 6, 10⟩, time := "02:00 PM",
                   doctor := "Dr. Smith", available := true,
                   userId := none }] := by
  constructor
  · decide
  · decide
